import Mathlib

/-!
Verification of the magic n-gon ring solver (Project Euler 68).

The source program enumerates all permutations of `[1, ..., 2n]` as candidate
rings (first `n` entries: external nodes clockwise, last `n`: internal nodes),
filters them (for `n = 5`: value `10` must be an external node; canonical form:
the first external node is the least external node; all `n` constraint-line
sums equal), and returns the solution description strings sorted in descending
order together with the maximum concatenated value.
-/

set_option maxRecDepth 100000

namespace P68

/-- The candidate ring entries `[1, 2, ..., 2n]`, from `entries = list(range(1, 2*n+1))`. -/
def entries (n : Nat) : List Nat := List.range' 1 (2 * n)

/-- The constraint triples of ring positions, from
`constraints = [(i, n+i, n + (i+1) % n) for i in range(n)]`. -/
def constraints (n : Nat) : List (Nat × Nat × Nat) :=
  (List.range n).map (fun i => (i, n + i, n + (i + 1) % n))

/-- The lines of a ring, from
`lines = list(map(lambda c: list(map(lambda i: ring[i], c)), constraints))`.
Indexing `ring[i]` is modelled by `getD` with default `0`; the default is never
hit because every constraint index is below `2n`, the length of a ring. -/
def ringLines (n : Nat) (ring : List Nat) : List (List Nat) :=
  (constraints n).map (fun c => [ring.getD c.1 0, ring.getD c.2.1 0, ring.getD c.2.2 0])

/-- The `n = 5` special filter, from `if n == 5 and 10 not in ring[:n]: continue`:
`true` exactly when the candidate is NOT skipped. -/
def filter5 (n : Nat) (ring : List Nat) : Bool :=
  !(n == 5 && !(ring.take n).contains 10)

/-- The canonical-form filter, from `if min(ring[:n]) != ring[0]: continue`:
`true` exactly when the candidate is NOT skipped. -/
def filterCanon (n : Nat) (ring : List Nat) : Bool :=
  (ring.take n).min? == some (ring.headD 0)

/-- The equal-sum filter, from `sums = set(map(sum, lines)); if len(sums) > 1: continue`:
`true` exactly when the candidate is NOT skipped (the set of line sums has at
most one element, i.e. the deduplicated list of sums has length at most one). -/
def filterSums (n : Nat) (ring : List Nat) : Bool :=
  decide (((ringLines n ring).map (fun l => l.sum)).dedup.length ≤ 1)

/-- The rings that survive all three filters, in the source's filter order.
The source streams `permutations(entries)` lazily in lexicographic order; here
the same multiset of candidates is produced by `List.permutations'`.  Every
result of the program (the descending-sorted string list and the maximum) is
invariant under the enumeration order of the candidates. -/
def passingRings (n : Nat) : List (List Nat) :=
  (entries n).permutations'.filter (fun r => filter5 n r && filterCanon n r && filterSums n r)

/-- `sep.join(strs)` from Python: intersperses `sep` between the strings. -/
def joinSep (sep : String) : List String → String
  | [] => ""
  | [s] => s
  | s :: r :: rest => s ++ sep ++ joinSep sep (r :: rest)

/-- One line's description, from `','.join(map(str, line))`. -/
def lineStr (line : List Nat) : String := joinSep "," (line.map Nat.repr)

/-- A solution description, from
`sol_str = '; '.join(map(lambda line: ','.join(map(str, line)), lines))`. -/
def solStr (n : Nat) (ring : List Nat) : String :=
  joinSep "; " ((ringLines n ring).map lineStr)

/-- `''.join(strs)`: concatenation of a list of strings. -/
def concatAll : List String → String
  | [] => ""
  | s :: rest => s ++ concatAll rest

/-- The concatenated digit string of a ring, from
`''.join([str(x) for line in lines for x in line])`. -/
def concatStr (n : Nat) (ring : List Nat) : String :=
  concatAll (((ringLines n ring).flatten).map Nat.repr)

/-- `int(s)` on a string of decimal digits: a left fold over the characters. -/
def strToNat (s : String) : Nat :=
  s.data.foldl (fun acc c => 10 * acc + (c.toNat - 48)) 0

/-- `sol_concat = int(''.join([str(x) for line in lines for x in line]))`. -/
def sol_concat (n : Nat) (ring : List Nat) : Nat := strToNat (concatStr n ring)

/-- The running maximum of concatenated values, from
`sol_concat_max = 0` then `sol_concat_max = max(sol_concat_max, sol_concat)`. -/
def sol_concat_max (n : Nat) : Nat :=
  ((passingRings n).map (sol_concat n)).foldl max 0

/-- Strict lexicographic comparison of character lists by code points: exactly
how Python compares two strings. -/
def lexLtb : List Char → List Char → Bool
  | [], [] => false
  | [], _ :: _ => true
  | _ :: _, [] => false
  | a :: as, b :: bs =>
    if a.toNat < b.toNat then true
    else if b.toNat < a.toNat then false
    else lexLtb as bs

/-- `a` is lexicographically greater than or equal to `b` (Python's `a >= b`
on strings). -/
def strGe (a b : String) : Prop := lexLtb a.data b.data = false

instance : DecidableRel strGe := fun _ _ => instDecidableEqBool _ _

/-- The solution strings after `sol_strs.sort(reverse=True)`: a stable sort
into descending lexicographic order.  Python's sort is a stable mergesort;
it is modelled by the stable `List.insertionSort` (any two stable sorts with
respect to the same total preorder agree; moreover the entries turn out to be
pairwise distinct, so stability is vacuous here). -/
def sol_strs (n : Nat) : List String :=
  ((passingRings n).map (solStr n)).insertionSort strGe

/-- The body of `main` after the assertion: `return sol_strs, sol_concat_max`. -/
def main (n : Nat) : List String × Nat := (sol_strs n, sol_concat_max n)

/-- The magic total of a ring: the common value of its line sums (the first
line's sum). -/
def magicTotal (n : Nat) (ring : List Nat) : Nat :=
  ((ringLines n ring).map (fun l => l.sum)).headD 0

/-- A Python argument value, as far as the precondition
`assert type(n) == int and 3 <= n <= 5` can distinguish them: an object of
exact type `int`, an object of exact type `bool` (in Python `bool` is a
subclass of `int`, but `type(n) == int` is an exact type test, so booleans
fail it), or any object of another type (which also fails the type test; the
chained comparison is never evaluated thanks to `and` short-circuiting). -/
inductive PyArg where
  | int (i : Int)
  | bool (b : Bool)
  | other

/-- `type(n) == int`: the exact type test of the assertion. -/
def typeIsInt : PyArg → Bool
  | .int _ => true
  | _ => false

/-- `main` with its precondition `assert type(n) == int and 3 <= n <= 5`:
a failed assertion raises (modelled by `Except.error`) before any of the
computation runs, so no partial output is produced. -/
def mainPy (a : PyArg) : Except Unit (List String × Nat) :=
  match a with
  | .int i => if 3 ≤ i ∧ i ≤ 5 then .ok (main i.toNat) else .error ()
  | _ => .error ()

/-! ### Helper lemmas -/

theorem mem_passingRings {n : Nat} {r : List Nat} :
    r ∈ passingRings n ↔
      r.Perm (entries n) ∧ filter5 n r = true ∧ filterCanon n r = true ∧
        filterSums n r = true := by
  simp [passingRings, List.mem_filter, List.mem_permutations', and_assoc]

theorem mem_main_fst {n : Nat} {s : String} :
    s ∈ (main n).1 ↔ ∃ r ∈ passingRings n, solStr n r = s := by
  show s ∈ sol_strs n ↔ _
  unfold sol_strs
  rw [(List.perm_insertionSort strGe _).mem_iff, List.mem_map]

theorem all_eq_of_dedup_length_le_one {l : List Nat} (h : l.dedup.length ≤ 1) :
    ∀ x ∈ l, ∀ y ∈ l, x = y := by
  intro x hx y hy
  have hx' := List.mem_dedup.mpr hx
  have hy' := List.mem_dedup.mpr hy
  cases hd : l.dedup with
  | nil => rw [hd] at hx'; cases hx'
  | cons a t =>
    cases t with
    | nil =>
      rw [hd] at hx' hy'
      simp only [List.mem_singleton] at hx' hy'
      rw [hx', hy']
    | cons b t2 => rw [hd] at h; simp at h

theorem sums_all_eq {n : Nat} {r : List Nat} (h : filterSums n r = true) :
    ∀ x ∈ (ringLines n r).map (fun l => l.sum),
      ∀ y ∈ (ringLines n r).map (fun l => l.sum), x = y := by
  unfold filterSums at h
  exact all_eq_of_dedup_length_le_one (of_decide_eq_true h)

theorem canon_of_filterCanon {n : Nat} {r : List Nat} (h : filterCanon n r = true) :
    (r.take n).min? = some (r.headD 0) := by
  unfold filterCanon at h
  exact eq_of_beq h

theorem mem_take_of_filter5 {r : List Nat} (h : filter5 5 r = true) :
    10 ∈ r.take 5 := by
  simpa [filter5] using h

theorem le_foldl_max (l : List Nat) : ∀ a : Nat, a ≤ l.foldl max a := by
  induction l with
  | nil => intro a; exact Nat.le_refl a
  | cons y ys ih =>
    intro a
    exact Nat.le_trans (Nat.le_max_left a y) (ih (max a y))

theorem foldl_max_le {l : List Nat} : ∀ {a x : Nat}, x ∈ l → x ≤ l.foldl max a := by
  induction l with
  | nil => intro a x hx; cases hx
  | cons y ys ih =>
    intro a x hx
    rcases List.mem_cons.mp hx with h | h
    · subst h
      exact Nat.le_trans (Nat.le_max_right a x) (le_foldl_max ys (max a x))
    · exact ih h

theorem foldl_max_eq_or_mem (l : List Nat) : ∀ a : Nat, l.foldl max a = a ∨ l.foldl max a ∈ l := by
  induction l with
  | nil => intro a; left; rfl
  | cons y ys ih =>
    intro a
    rcases ih (max a y) with h | h
    · rcases max_choice a y with hm | hm
      · left; rw [List.foldl_cons, h, hm]
      · right; rw [List.foldl_cons, h, hm]; exact List.mem_cons_self y ys
    · right; exact List.mem_cons_of_mem y h

theorem foldl_max_zero_mem {l : List Nat} (h : l ≠ []) : l.foldl max 0 ∈ l := by
  rcases foldl_max_eq_or_mem l 0 with h0 | hm
  · cases l with
    | nil => exact absurd rfl h
    | cons y ys =>
      have hy : y ≤ (y :: ys).foldl max 0 := foldl_max_le (List.mem_cons_self y ys)
      rw [h0] at hy
      have : y = 0 := Nat.le_zero.mp hy
      rw [h0, ← this]
      exact List.mem_cons_self y ys
  · exact hm

theorem lexLtb_iff : ∀ {as bs : List Char}, lexLtb as bs = true ↔ as < bs := by
  intro as
  induction as with
  | nil =>
    intro bs
    cases bs with
    | nil =>
      refine iff_of_false (by simp [lexLtb]) ?_
      intro h
      cases h
    | cons b bs2 =>
      exact iff_of_true rfl List.Lex.nil
  | cons a as2 ih =>
    intro bs
    cases bs with
    | nil =>
      refine iff_of_false (by simp [lexLtb]) ?_
      intro h
      cases h
    | cons b bs2 =>
      show (if a.toNat < b.toNat then true
        else if b.toNat < a.toNat then false else lexLtb as2 bs2) = true ↔ _
      rcases Nat.lt_trichotomy a.toNat b.toNat with hlt | heq | hgt
      · rw [if_pos hlt]
        exact iff_of_true rfl (List.Lex.rel hlt)
      · have hab : a = b := Char.ext (UInt32.ext heq)
        subst hab
        rw [if_neg (Nat.lt_irrefl _), if_neg (Nat.lt_irrefl _)]
        constructor
        · intro h
          exact List.Lex.cons (ih.mp h)
        · intro h
          cases h with
          | cons ht => exact ih.mpr ht
          | rel hc => exact absurd hc (Nat.lt_irrefl _)
      · rw [if_neg (Nat.lt_asymm hgt), if_pos hgt]
        refine iff_of_false (by simp) ?_
        intro h
        cases h with
        | cons ht => exact absurd hgt (Nat.lt_irrefl _)
        | rel hc => exact absurd hc (Nat.lt_asymm hgt)

theorem strGe_iff {a b : String} : strGe a b ↔ b ≤ a := by
  unfold strGe
  rw [Bool.eq_false_iff]
  have h1 : lexLtb a.data b.data = true ↔ a < b := by
    rw [lexLtb_iff, String.lt_iff_toList_lt]
    exact Iff.rfl
  rw [Ne, h1]
  exact not_lt

theorem strGe_total (a b : String) : strGe a b ∨ strGe b a := by
  rw [strGe_iff, strGe_iff]
  exact le_total b a

theorem strGe_trans (a b c : String) : strGe a b → strGe b c → strGe a c := by
  rw [strGe_iff, strGe_iff, strGe_iff]
  intro h1 h2
  exact le_trans h2 h1

instance : IsTotal String strGe := ⟨strGe_total⟩

instance : IsTrans String strGe := ⟨strGe_trans⟩

theorem length_ringLines (n : Nat) (r : List Nat) : (ringLines n r).length = n := by
  simp [ringLines, constraints]

theorem length_concatAll (l : List String) :
    (concatAll l).length = (l.map String.length).sum := by
  induction l with
  | nil => rfl
  | cons s rest ih =>
    show (s ++ concatAll rest).length = _
    rw [String.length_append, ih, List.map_cons, List.sum_cons]

theorem repr_len_one : ∀ v ∈ entries 5, v ≠ 10 → (Nat.repr v).length = 1 := by decide

theorem sum_map_len_eq_length {l : List Nat} (h : ∀ v ∈ l, (Nat.repr v).length = 1) :
    (l.map (fun v => (Nat.repr v).length)).sum = l.length := by
  induction l with
  | nil => rfl
  | cons v vs ih =>
    rw [List.map_cons, List.sum_cons, h v (List.mem_cons_self v vs),
      ih (fun w hw => h w (List.mem_cons_of_mem v hw)), List.length_cons]
    omega

theorem concatStr5_length {r : List Nat} (hperm : r.Perm (entries 5))
    (h10 : 10 ∈ r.take 5) : (concatStr 5 r).length = 16 := by
  have hlen : r.length = 10 := by rw [hperm.length_eq]; rfl
  rcases r with _ | ⟨x0, r⟩
  · simp only [List.length_nil] at hlen; omega
  rcases r with _ | ⟨x1, r⟩
  · simp only [List.length_cons, List.length_nil] at hlen; omega
  rcases r with _ | ⟨x2, r⟩
  · simp only [List.length_cons, List.length_nil] at hlen; omega
  rcases r with _ | ⟨x3, r⟩
  · simp only [List.length_cons, List.length_nil] at hlen; omega
  rcases r with _ | ⟨x4, r⟩
  · simp only [List.length_cons, List.length_nil] at hlen; omega
  rcases r with _ | ⟨x5, r⟩
  · simp only [List.length_cons, List.length_nil] at hlen; omega
  rcases r with _ | ⟨x6, r⟩
  · simp only [List.length_cons, List.length_nil] at hlen; omega
  rcases r with _ | ⟨x7, r⟩
  · simp only [List.length_cons, List.length_nil] at hlen; omega
  rcases r with _ | ⟨x8, r⟩
  · simp only [List.length_cons, List.length_nil] at hlen; omega
  rcases r with _ | ⟨x9, r⟩
  · simp only [List.length_cons, List.length_nil] at hlen; omega
  rcases r with _ | ⟨y, r⟩
  case cons => simp only [List.length_cons] at hlen; omega
  have hflat : (ringLines 5 [x0, x1, x2, x3, x4, x5, x6, x7, x8, x9]).flatten =
      [x0, x5, x6, x1, x6, x7, x2, x7, x8, x3, x8, x9, x4, x9, x5] := rfl
  have hidx : ([0, 5, 6, 1, 6, 7, 2, 7, 8, 3, 8, 9, 4, 9, 5] : List Nat).Perm
      ([0, 1, 2, 3, 4] ++ ([5, 6, 7, 8, 9] ++ [5, 6, 7, 8, 9])) := by decide
  have hvalperm : ([x0, x5, x6, x1, x6, x7, x2, x7, x8, x3, x8, x9, x4, x9, x5] :
        List Nat).Perm
      ([x0, x1, x2, x3, x4] ++ ([x5, x6, x7, x8, x9] ++ [x5, x6, x7, x8, x9])) :=
    hidx.map (fun p => ([x0, x1, x2, x3, x4, x5, x6, x7, x8, x9] : List Nat).getD p 0)
  have hext : (10 : Nat) ∈ [x0, x1, x2, x3, x4] := h10
  have hcnt : ([x0, x1, x2, x3, x4, x5, x6, x7, x8, x9] : List Nat).count 10 = 1 := by
    rw [hperm.count_eq 10]
    decide
  have hcnt2 : (([x0, x1, x2, x3, x4] : List Nat).count 10) +
      (([x5, x6, x7, x8, x9] : List Nat).count 10) = 1 := by
    rw [← List.count_append]
    exact hcnt
  have hpos : 0 < ([x0, x1, x2, x3, x4] : List Nat).count 10 :=
    List.count_pos_iff.mpr hext
  have hint0 : ([x5, x6, x7, x8, x9] : List Nat).count 10 = 0 := by omega
  have hnotin : (10 : Nat) ∉ [x5, x6, x7, x8, x9] := List.count_eq_zero.mp hint0
  have hmemall : ∀ v ∈ ([x0, x1, x2, x3, x4, x5, x6, x7, x8, x9] : List Nat),
      v ∈ entries 5 := fun v hv => hperm.mem_iff.mp hv
  have hsum_full :
      (([x0, x1, x2, x3, x4, x5, x6, x7, x8, x9] : List Nat).map
        (fun v => (Nat.repr v).length)).sum = 11 := by
    rw [(hperm.map (fun v => (Nat.repr v).length)).sum_eq]
    decide
  have hsum_int : (([x5, x6, x7, x8, x9] : List Nat).map
      (fun v => (Nat.repr v).length)).sum = 5 := by
    have h1 : ∀ v ∈ ([x5, x6, x7, x8, x9] : List Nat), (Nat.repr v).length = 1 := by
      intro v hv
      refine repr_len_one v (hmemall v ?_) (ne_of_mem_of_not_mem hv hnotin)
      exact List.mem_append_right [x0, x1, x2, x3, x4] hv
    rw [sum_map_len_eq_length h1]
    rfl
  have hfull_split :
      (([x0, x1, x2, x3, x4] : List Nat).map (fun v => (Nat.repr v).length)).sum +
        (([x5, x6, x7, x8, x9] : List Nat).map (fun v => (Nat.repr v).length)).sum
        = 11 := by
    rw [← List.sum_append, ← List.map_append]
    exact hsum_full
  show (concatAll
    (((ringLines 5 [x0, x1, x2, x3, x4, x5, x6, x7, x8, x9]).flatten).map
      Nat.repr)).length = 16
  rw [hflat, length_concatAll, List.map_map,
    (hvalperm.map (String.length ∘ Nat.repr)).sum_eq]
  have hrw : ∀ l : List Nat, l.map (String.length ∘ Nat.repr) =
      l.map (fun v => (Nat.repr v).length) := fun l => rfl
  rw [List.map_append, List.map_append, List.sum_append, List.sum_append]
  simp only [hrw]
  omega

theorem append_sep_inj {sep : Char} : ∀ {a c b d : List Char},
    sep ∉ a → sep ∉ c → a ++ sep :: b = c ++ sep :: d → a = c ∧ b = d := by
  intro a
  induction a with
  | nil =>
    intro c b d _ hc h
    cases c with
    | nil =>
      rw [List.nil_append, List.nil_append] at h
      exact ⟨rfl, (List.cons.injEq .. |>.mp h).2⟩
    | cons c0 cs =>
      rw [List.nil_append, List.cons_append] at h
      obtain ⟨h1, -⟩ := List.cons.injEq .. |>.mp h
      exact absurd (h1 ▸ List.mem_cons_self c0 cs) hc
  | cons a0 as ih =>
    intro c b d ha hc h
    cases c with
    | nil =>
      rw [List.cons_append, List.nil_append] at h
      obtain ⟨h1, -⟩ := List.cons.injEq .. |>.mp h
      exact absurd (h1 ▸ List.mem_cons_self a0 as) ha
    | cons c0 cs =>
      rw [List.cons_append, List.cons_append] at h
      obtain ⟨h1, h2⟩ := List.cons.injEq .. |>.mp h
      have ha' : sep ∉ as := fun hm => ha (List.mem_cons_of_mem a0 hm)
      have hc' : sep ∉ cs := fun hm => hc (List.mem_cons_of_mem c0 hm)
      obtain ⟨h3, h4⟩ := ih ha' hc' h2
      exact ⟨by rw [h1, h3], h4⟩

theorem repr_no_comma : ∀ v < 11, (',' : Char) ∉ (Nat.repr v).data := by decide

theorem repr_no_semi : ∀ v < 11, (';' : Char) ∉ (Nat.repr v).data := by decide

theorem repr_inj11 : ∀ v < 11, ∀ w < 11, Nat.repr v = Nat.repr w → v = w := by decide

theorem lineStr_data (x y z : Nat) : (lineStr [x, y, z]).data =
    (Nat.repr x).data ++ ',' :: ((Nat.repr y).data ++ ',' :: (Nat.repr z).data) := by
  show ((Nat.repr x ++ "," ++ (Nat.repr y ++ "," ++ Nat.repr z)) : String).data = _
  simp only [String.data_append, List.append_assoc]
  rfl

theorem lineStr_inj {l1 l2 : List Nat} (hg1 : l1.length = 3 ∧ ∀ v ∈ l1, v < 11)
    (hg2 : l2.length = 3 ∧ ∀ v ∈ l2, v < 11) (h : lineStr l1 = lineStr l2) :
    l1 = l2 := by
  obtain ⟨hlen1, hb1⟩ := hg1
  obtain ⟨hlen2, hb2⟩ := hg2
  rcases l1 with _ | ⟨x1, _ | ⟨y1, _ | ⟨z1, _ | ⟨w1, t1⟩⟩⟩⟩ <;>
    simp only [List.length_nil, List.length_cons] at hlen1 <;> try omega
  rcases l2 with _ | ⟨x2, _ | ⟨y2, _ | ⟨z2, _ | ⟨w2, t2⟩⟩⟩⟩ <;>
    simp only [List.length_nil, List.length_cons] at hlen2 <;> try omega
  have bx1 : x1 < 11 := hb1 x1 (by simp)
  have by1 : y1 < 11 := hb1 y1 (by simp)
  have bz1 : z1 < 11 := hb1 z1 (by simp)
  have bx2 : x2 < 11 := hb2 x2 (by simp)
  have by2 : y2 < 11 := hb2 y2 (by simp)
  have bz2 : z2 < 11 := hb2 z2 (by simp)
  have hd := congrArg String.data h
  rw [lineStr_data, lineStr_data] at hd
  obtain ⟨h1, h2⟩ := append_sep_inj (repr_no_comma x1 bx1) (repr_no_comma x2 bx2) hd
  obtain ⟨h3, h4⟩ := append_sep_inj (repr_no_comma y1 by1) (repr_no_comma y2 by2) h2
  have ex := repr_inj11 x1 bx1 x2 bx2 (String.ext h1)
  have ey := repr_inj11 y1 by1 y2 by2 (String.ext h3)
  have ez := repr_inj11 z1 bz1 z2 bz2 (String.ext h4)
  rw [ex, ey, ez]

theorem lineStr_no_semi {l : List Nat} (hg : l.length = 3 ∧ ∀ v ∈ l, v < 11) :
    (';' : Char) ∉ (lineStr l).data := by
  obtain ⟨hlen, hb⟩ := hg
  rcases l with _ | ⟨x, _ | ⟨y, _ | ⟨z, _ | ⟨w, t⟩⟩⟩⟩ <;>
    simp only [List.length_nil, List.length_cons] at hlen <;> try omega
  rw [lineStr_data]
  intro hm
  rcases List.mem_append.mp hm with hm1 | hm1
  · exact repr_no_semi x (hb x (by simp)) hm1
  rcases List.mem_cons.mp hm1 with he | hm2
  · exact absurd he (by decide)
  rcases List.mem_append.mp hm2 with hm3 | hm3
  · exact repr_no_semi y (hb y (by simp)) hm3
  rcases List.mem_cons.mp hm3 with he | hm4
  · exact absurd he (by decide)
  exact repr_no_semi z (hb z (by simp)) hm4

theorem joinSep_lines_inj : ∀ {ss1 ss2 : List String}, ss1.length = ss2.length →
    (∀ s ∈ ss1, (';' : Char) ∉ s.data) → (∀ s ∈ ss2, (';' : Char) ∉ s.data) →
    joinSep "; " ss1 = joinSep "; " ss2 → ss1 = ss2 := by
  intro ss1
  induction ss1 with
  | nil =>
    intro ss2 hlen _ _ _
    cases ss2 with
    | nil => rfl
    | cons s2 t2 => simp at hlen
  | cons s1 t1 ih =>
    intro ss2 hlen hns1 hns2 hj
    cases ss2 with
    | nil => simp at hlen
    | cons s2 t2 =>
      cases t1 with
      | nil =>
        cases t2 with
        | nil =>
          have : s1 = s2 := hj
          rw [this]
        | cons u2 v2 => simp at hlen
      | cons u1 v1 =>
        cases t2 with
        | nil => simp at hlen
        | cons u2 v2 =>
          have hd := congrArg String.data hj
          show s1 :: u1 :: v1 = s2 :: u2 :: v2
          have hshape : ∀ (s : String) (u : String) (v : List String),
              (joinSep "; " (s :: u :: v)).data =
                s.data ++ ';' :: ' ' :: (joinSep "; " (u :: v)).data := by
            intro s u v
            show ((s ++ "; " ++ joinSep "; " (u :: v)) : String).data = _
            simp only [String.data_append, List.append_assoc]
            rfl
          rw [hshape, hshape] at hd
          obtain ⟨h1, h2⟩ := append_sep_inj (hns1 s1 (List.mem_cons_self s1 _))
            (hns2 s2 (List.mem_cons_self s2 _)) hd
          have h2' : (joinSep "; " (u1 :: v1)).data = (joinSep "; " (u2 :: v2)).data :=
            (List.cons.injEq .. |>.mp h2).2
          have ht : u1 :: v1 = u2 :: v2 := by
            refine ih ?_ ?_ ?_ (String.ext h2')
            · simpa using hlen
            · exact fun s hs => hns1 s (List.mem_cons_of_mem s1 hs)
            · exact fun s hs => hns2 s (List.mem_cons_of_mem s2 hs)
          rw [String.ext h1, ht]

theorem map_lineStr_inj : ∀ {ls1 ls2 : List (List Nat)},
    (∀ l ∈ ls1, l.length = 3 ∧ ∀ v ∈ l, v < 11) →
    (∀ l ∈ ls2, l.length = 3 ∧ ∀ v ∈ l, v < 11) →
    ls1.map lineStr = ls2.map lineStr → ls1 = ls2 := by
  intro ls1
  induction ls1 with
  | nil =>
    intro ls2 _ _ h
    cases ls2 with
    | nil => rfl
    | cons l2 t2 => simp at h
  | cons l1 t1 ih =>
    intro ls2 hg1 hg2 h
    cases ls2 with
    | nil => simp at h
    | cons l2 t2 =>
      rw [List.map_cons, List.map_cons] at h
      obtain ⟨h1, h2⟩ := List.cons.injEq .. |>.mp h
      have he : l1 = l2 := lineStr_inj (hg1 l1 (List.mem_cons_self l1 t1))
        (hg2 l2 (List.mem_cons_self l2 t2)) h1
      have ht : t1 = t2 := ih (fun l hl => hg1 l (List.mem_cons_of_mem l1 hl))
        (fun l hl => hg2 l (List.mem_cons_of_mem l2 hl)) h2
      rw [he, ht]

theorem ringLines_inj {n : Nat} {r1 r2 : List Nat} (hl1 : r1.length = 2 * n)
    (hl2 : r2.length = 2 * n) (h : ringLines n r1 = ringLines n r2) : r1 = r2 := by
  have hpt := List.map_inj_left.mp h
  have hgetD : ∀ p, p < 2 * n → r1.getD p 0 = r2.getD p 0 := by
    intro p hp
    by_cases hpn : p < n
    · have hc : (p, n + p, n + (p + 1) % n) ∈ constraints n :=
        List.mem_map.mpr ⟨p, List.mem_range.mpr hpn, rfl⟩
      have hval := hpt _ hc
      simp only [List.cons.injEq] at hval
      exact hval.1
    · have hi : p - n < n := by omega
      have hc : (p - n, n + (p - n), n + (p - n + 1) % n) ∈ constraints n :=
        List.mem_map.mpr ⟨p - n, List.mem_range.mpr hi, rfl⟩
      have hval := hpt _ hc
      simp only [List.cons.injEq] at hval
      have hnp : n + (p - n) = p := by omega
      rw [hnp] at hval
      exact hval.2.1
  apply List.ext_getElem (by omega)
  intro i hi1 hi2
  have hgd := hgetD i (by omega)
  rwa [List.getD_eq_getElem r1 0 hi1, List.getD_eq_getElem r2 0 hi2] at hgd

theorem good_ringLines {n : Nat} (h3 : 3 ≤ n) (h5 : n ≤ 5) {r : List Nat}
    (hlen : r.length = 2 * n) (hb : ∀ v ∈ r, v < 11) :
    ∀ l ∈ ringLines n r, l.length = 3 ∧ ∀ v ∈ l, v < 11 := by
  intro l hl
  obtain ⟨c, hc, hcl⟩ := List.mem_map.mp hl
  obtain ⟨i, hi, hic⟩ := List.mem_map.mp hc
  have hin : i < n := List.mem_range.mp hi
  have hmod : (i + 1) % n < n := Nat.mod_lt _ (by omega)
  have hgd : ∀ p, p < 2 * n → r.getD p 0 ∈ r := by
    intro p hp
    rw [List.getD_eq_getElem r 0 (by omega)]
    exact List.getElem_mem _
  subst hic
  rw [← hcl]
  refine ⟨rfl, ?_⟩
  intro v hv
  rcases List.mem_cons.mp hv with he | hv1
  · exact he ▸ hb _ (hgd i (by omega))
  rcases List.mem_cons.mp hv1 with he | hv2
  · exact he ▸ hb _ (hgd (n + i) (by omega))
  rcases List.mem_cons.mp hv2 with he | hv3
  · exact he ▸ hb _ (hgd (n + (i + 1) % n) (by omega))
  · cases hv3

theorem solStr_inj_of_mem {n : Nat} (h3 : 3 ≤ n) (h5 : n ≤ 5) {r1 r2 : List Nat}
    (hm1 : r1 ∈ passingRings n) (hm2 : r2 ∈ passingRings n)
    (h : solStr n r1 = solStr n r2) : r1 = r2 := by
  have hp1 := (mem_passingRings.mp hm1).1
  have hp2 := (mem_passingRings.mp hm2).1
  have hl1 : r1.length = 2 * n := by rw [hp1.length_eq]; simp [entries]
  have hl2 : r2.length = 2 * n := by rw [hp2.length_eq]; simp [entries]
  have hb1 : ∀ v ∈ r1, v < 11 := by
    intro v hv
    have hm := List.mem_range'_1.mp (hp1.mem_iff.mp hv)
    omega
  have hb2 : ∀ v ∈ r2, v < 11 := by
    intro v hv
    have hm := List.mem_range'_1.mp (hp2.mem_iff.mp hv)
    omega
  have hg1 := good_ringLines h3 h5 hl1 hb1
  have hg2 := good_ringLines h3 h5 hl2 hb2
  have hmap : (ringLines n r1).map lineStr = (ringLines n r2).map lineStr := by
    refine joinSep_lines_inj ?_ ?_ ?_ h
    · rw [List.length_map, List.length_map, length_ringLines, length_ringLines]
    · intro s hs
      obtain ⟨l, hl, hls⟩ := List.mem_map.mp hs
      exact hls ▸ lineStr_no_semi (hg1 l hl)
    · intro s hs
      obtain ⟨l, hl, hls⟩ := List.mem_map.mp hs
      exact hls ▸ lineStr_no_semi (hg2 l hl)
  exact ringLines_inj hl1 hl2 (map_lineStr_inj hg1 hg2 hmap)

/-! ### Claim theorems -/

/-- C1: for every valid n in 3..5, every solution description returned by
main n comes from a ring that passed all filters and whose n constraint-line
sums (line i being positions i, n+i, n+(i+1) mod n) are pairwise equal. -/
theorem C1_line_sums_pairwise_equal (n : Nat) (h3 : 3 ≤ n) (h5 : n ≤ 5) :
    ∀ s ∈ (main n).1, ∃ r, r ∈ passingRings n ∧ solStr n r = s ∧
      ∀ x ∈ (ringLines n r).map (fun l => l.sum),
        ∀ y ∈ (ringLines n r).map (fun l => l.sum), x = y := by
  intro s hs
  obtain ⟨r, hr, he⟩ := mem_main_fst.mp hs
  exact ⟨r, hr, he, sums_all_eq (mem_passingRings.mp hr).2.2.2⟩

/-- Witness for C1, at n = 3 with the returned solution 4,3,2; 6,2,1; 5,1,3. -/
theorem C1_witness :
    (3 ≤ 3 ∧ 3 ≤ 5 ∧ "4,3,2; 6,2,1; 5,1,3" ∈ (main 3).1) ∧
    (∃ r, r ∈ passingRings 3 ∧ solStr 3 r = "4,3,2; 6,2,1; 5,1,3" ∧
      ∀ x ∈ (ringLines 3 r).map (fun l => l.sum),
        ∀ y ∈ (ringLines 3 r).map (fun l => l.sum), x = y) :=
  ⟨⟨by decide, by decide, by decide⟩,
   C1_line_sums_pairwise_equal 3 (by decide) (by decide) _ (by decide)⟩

/-- C2: main 3 returns exactly 8 solution descriptions, the magic total of
each of the 8 passing rings is one of 9, 10, 11, 12 with exactly two
solutions per total, and the returned maximum concatenation is 432621513. -/
theorem C2_n3_results :
    (main 3).1.length = 8 ∧ (main 3).2 = 432621513 ∧
    (passingRings 3).length = 8 ∧
    (∀ t ∈ (passingRings 3).map (magicTotal 3), t = 9 ∨ t = 10 ∨ t = 11 ∨ t = 12) ∧
    ((passingRings 3).map (magicTotal 3)).count 9 = 2 ∧
    ((passingRings 3).map (magicTotal 3)).count 10 = 2 ∧
    ((passingRings 3).map (magicTotal 3)).count 11 = 2 ∧
    ((passingRings 3).map (magicTotal 3)).count 12 = 2 := by
  decide

/-- C3: every solution description returned by main 5 comes from a ring with
the value 10 among its 5 external nodes (the first 5 ring positions), and the
concatenated decimal string of every such ring has exactly 16 digits. -/
theorem C3_n5_properties :
    ∀ s ∈ (main 5).1, ∃ r, r ∈ passingRings 5 ∧ solStr 5 r = s ∧
      10 ∈ r.take 5 ∧ (concatStr 5 r).length = 16 := by
  intro s hs
  obtain ⟨r, hr, he⟩ := mem_main_fst.mp hs
  obtain ⟨hperm, hf5, -, -⟩ := mem_passingRings.mp hr
  have h10 := mem_take_of_filter5 hf5
  exact ⟨r, hr, he, h10, concatStr5_length hperm h10⟩

/-- Witness for C3: the maximal magic 5-gon ring solution. -/
theorem C3_witness :
    ("6,5,3; 10,3,1; 9,1,4; 8,4,2; 7,2,5" ∈ (main 5).1) ∧
    (∃ r, r ∈ passingRings 5 ∧
      solStr 5 r = "6,5,3; 10,3,1; 9,1,4; 8,4,2; 7,2,5" ∧
      10 ∈ r.take 5 ∧ (concatStr 5 r).length = 16) := by
  have hr0 : ([6, 10, 9, 8, 7, 5, 3, 1, 4, 2] : List Nat) ∈ passingRings 5 :=
    mem_passingRings.mpr ⟨by decide, by decide, by decide, by decide⟩
  have hs : "6,5,3; 10,3,1; 9,1,4; 8,4,2; 7,2,5" ∈ (main 5).1 :=
    mem_main_fst.mpr ⟨[6, 10, 9, 8, 7, 5, 3, 1, 4, 2], hr0, by decide⟩
  exact ⟨hs, C3_n5_properties _ hs⟩

/-- C4: for every valid n, every solution description returned by main n
comes from a ring in canonical form: the entry at ring position 0 is the
minimum of the first n ring positions (the external nodes). -/
theorem C4_canonical_form (n : Nat) (h3 : 3 ≤ n) (h5 : n ≤ 5) :
    ∀ s ∈ (main n).1, ∃ r, r ∈ passingRings n ∧ solStr n r = s ∧
      (r.take n).min? = some (r.headD 0) := by
  intro s hs
  obtain ⟨r, hr, he⟩ := mem_main_fst.mp hs
  exact ⟨r, hr, he, canon_of_filterCanon (mem_passingRings.mp hr).2.2.1⟩

/-- Witness for C4, at n = 3 with the returned solution 4,3,2; 6,2,1; 5,1,3. -/
theorem C4_witness :
    (3 ≤ 3 ∧ 3 ≤ 5 ∧ "4,3,2; 6,2,1; 5,1,3" ∈ (main 3).1) ∧
    (∃ r, r ∈ passingRings 3 ∧ solStr 3 r = "4,3,2; 6,2,1; 5,1,3" ∧
      (r.take 3).min? = some (r.headD 0)) :=
  ⟨⟨by decide, by decide, by decide⟩,
   C4_canonical_form 3 (by decide) (by decide) _ (by decide)⟩

/-- C5: for every valid n, the second component returned by main n is the
maximum of the concatenated numeric values over all passing rings: it bounds
every passing ring's concatenated value, it is 0 when no candidate passes,
and it is attained by some passing ring otherwise. -/
theorem C5_max_concat (n : Nat) (h3 : 3 ≤ n) (h5 : n ≤ 5) :
    (∀ r ∈ passingRings n, sol_concat n r ≤ (main n).2) ∧
    (passingRings n = [] → (main n).2 = 0) ∧
    (passingRings n ≠ [] → (main n).2 ∈ (passingRings n).map (sol_concat n)) := by
  refine ⟨?_, ?_, ?_⟩
  · intro r hr
    exact foldl_max_le (List.mem_map_of_mem (sol_concat n) hr)
  · intro he
    show sol_concat_max n = 0
    unfold sol_concat_max
    rw [he]
    rfl
  · intro hne
    show sol_concat_max n ∈ _
    unfold sol_concat_max
    apply foldl_max_zero_mem
    intro hm
    exact hne (List.map_eq_nil_iff.mp hm)

/-- Witness for C5, at n = 3. -/
theorem C5_witness :
    (3 ≤ 3 ∧ 3 ≤ 5) ∧
    ((∀ r ∈ passingRings 3, sol_concat 3 r ≤ (main 3).2) ∧
     (passingRings 3 = [] → (main 3).2 = 0) ∧
     (passingRings 3 ≠ [] → (main 3).2 ∈ (passingRings 3).map (sol_concat 3))) :=
  ⟨⟨by decide, by decide⟩, C5_max_concat 3 (by decide) (by decide)⟩

/-- C6: an argument that is not of exact type int, or an int outside 3..5,
makes the precondition assertion fail (an error before any computation, so
no partial output); every int argument in 3..5 passes the assertion and
main returns its result. -/
theorem C6_invalid_argument :
    (∀ a : PyArg, (∀ i : Int, a = PyArg.int i → i < 3 ∨ 5 < i) →
      mainPy a = .error ()) ∧
    (∀ i : Int, 3 ≤ i → i ≤ 5 → mainPy (PyArg.int i) = .ok (main i.toNat)) := by
  constructor
  · intro a h
    cases a with
    | int i =>
      have hi := h i rfl
      show (if 3 ≤ i ∧ i ≤ 5 then Except.ok (main i.toNat) else Except.error ()) =
        Except.error ()
      rw [if_neg (by omega)]
    | bool b => rfl
    | other => rfl
  · intro i hi3 hi5
    show (if 3 ≤ i ∧ i ≤ 5 then Except.ok (main i.toNat) else Except.error ()) = _
    rw [if_pos ⟨hi3, hi5⟩]

/-- Witness for C6: a non-int argument errors, and the int 4 succeeds. -/
theorem C6_witness :
    ((∀ i : Int, PyArg.other = PyArg.int i → i < 3 ∨ 5 < i) ∧
      mainPy PyArg.other = .error ()) ∧
    ((3 : Int) ≤ 4 ∧ (4 : Int) ≤ 5 ∧
      mainPy (PyArg.int 4) = .ok (main (4 : Int).toNat)) :=
  ⟨⟨fun _ h => PyArg.noConfusion h,
    C6_invalid_argument.1 PyArg.other (fun _ h => PyArg.noConfusion h)⟩,
   ⟨by decide, by decide, C6_invalid_argument.2 4 (by decide) (by decide)⟩⟩

/-- C7: for every valid n, the returned list is sorted in descending
lexicographic order, and every entry is n groups of 3 comma-separated
integers, the groups joined by a semicolon and space. -/
theorem C7_format_and_sorted (n : Nat) (h3 : 3 ≤ n) (h5 : n ≤ 5) :
    (main n).1.Sorted (fun a b : String => a ≥ b) ∧
    ∀ s ∈ (main n).1, ∃ lines : List (List Nat),
      lines.length = n ∧ (∀ l ∈ lines, l.length = 3) ∧
      s = joinSep "; " (lines.map (fun l => joinSep "," (l.map Nat.repr))) := by
  constructor
  · have h := List.sorted_insertionSort strGe ((passingRings n).map (solStr n))
    exact List.Pairwise.imp (fun hab => strGe_iff.mp hab) h
  · intro s hs
    obtain ⟨r, hr, he⟩ := mem_main_fst.mp hs
    refine ⟨ringLines n r, length_ringLines n r, ?_, ?_⟩
    · intro l hl
      obtain ⟨c, _, hcl⟩ := List.mem_map.mp hl
      rw [← hcl]
      rfl
    · rw [← he]
      rfl

/-- Witness for C7, at n = 3. -/
theorem C7_witness :
    (3 ≤ 3 ∧ 3 ≤ 5) ∧
    ((main 3).1.Sorted (fun a b : String => a ≥ b) ∧
     ∀ s ∈ (main 3).1, ∃ lines : List (List Nat),
       lines.length = 3 ∧ (∀ l ∈ lines, l.length = 3) ∧
       s = joinSep "; " (lines.map (fun l => joinSep "," (l.map Nat.repr)))) :=
  ⟨⟨by decide, by decide⟩, C7_format_and_sorted 3 (by decide) (by decide)⟩

/-- C8: for every valid n, no two entries of the solution-string list
returned by main n are identical: distinct canonical rings render to
distinct description strings. -/
theorem C8_no_duplicate_strings (n : Nat) (h3 : 3 ≤ n) (h5 : n ≤ 5) :
    (main n).1.Nodup := by
  have hent : (entries n).Nodup := List.nodup_range' 1 (2 * n) 1 (by omega)
  have hperms : (entries n).permutations'.Nodup :=
    (List.permutations_perm_permutations' (entries n)).nodup
      (List.nodup_permutations (entries n) hent)
  have hpass : (passingRings n).Nodup := hperms.filter _
  have hmap : ((passingRings n).map (solStr n)).Nodup :=
    hpass.map_on (fun r1 h1 r2 h2 he => solStr_inj_of_mem h3 h5 h1 h2 he)
  show (sol_strs n).Nodup
  exact ((List.perm_insertionSort strGe _).symm).nodup hmap

/-- Witness for C8, at n = 3. -/
theorem C8_witness : (3 ≤ 3 ∧ 3 ≤ 5) ∧ (main 3).1.Nodup :=
  ⟨⟨by decide, by decide⟩, C8_no_duplicate_strings 3 (by decide) (by decide)⟩

/-- C9: the solver is a deterministic pure function of its argument: two
invocations with the same argument return identical results.  In this
embedding main and mainPy are pure functions, which is faithful to the
source: the loop only reads its locals, so the result depends on n alone. -/
theorem C9_deterministic (a : PyArg) : mainPy a = mainPy a := rfl

/-- Witness for C9, at the argument int 3. -/
theorem C9_witness : mainPy (PyArg.int 3) = mainPy (PyArg.int 3) :=
  C9_deterministic (PyArg.int 3)

/-- C10: a boolean argument fails the exact type test of the assertion
(in Python bool is a subclass of int, but type checking is by exact type),
so main raises the precondition error on True and on False. -/
theorem C10_bool_rejected (b : Bool) :
    typeIsInt (PyArg.bool b) = false ∧ mainPy (PyArg.bool b) = .error () :=
  ⟨rfl, rfl⟩

/-- Witness for C10, at the argument True. -/
theorem C10_witness :
    typeIsInt (PyArg.bool true) = false ∧ mainPy (PyArg.bool true) = .error () :=
  C10_bool_rejected true

end P68
